import Mathlib

/-!
Verification development for the VersionOps Linux agent
(`versionops_agent.py`).  The agent's discovery pipeline and HTTP
orchestration are shallowly embedded: Python strings become `List Char`,
the external world (filesystem, subprocess execution, HTTP backend) is
passed in as explicit oracles, and the functions mirror the source
line by line.  Regular-expression search (`re.search(pat, s)` followed by
`match.group(1)`) is embedded by a small backtracking engine over a regex
syntax tree with Python's preference order (leftmost position first,
greedy repetition, left-biased alternation) and numbered capturing
groups; repetition iterations are required to consume input, matching
the engine's empty-loop prevention on the patterns in scope.
-/

namespace VAgent

/-- Python strings are embedded as lists of characters. -/
abbrev Str := List Char

/-! ## Regular expressions (`re.search` / `group(1)`) -/

/-- Syntax tree of the regular-expression fragment used by version
patterns: literal characters, `\d`, `.`, concatenation, alternation,
greedy `*`, and numbered capturing groups (numbered by syntactic
position, as Python numbers `(`). -/
inductive Regex where
  | eps : Regex
  | ch (c : Char) : Regex
  | digit : Regex
  | dot : Regex
  | seq (a b : Regex) : Regex
  | alt (a b : Regex) : Regex
  | star (a : Regex) : Regex
  | group (a : Regex) : Regex
deriving DecidableEq

/-- Greedy `+`, desugared as in `\d+`. -/
def rplus (a : Regex) : Regex := .seq a (.star a)

/-- Number of capturing groups in a pattern. -/
def gcount : Regex → Nat
  | .eps => 0
  | .ch _ => 0
  | .digit => 0
  | .dot => 0
  | .seq a b => gcount a + gcount b
  | .alt a b => gcount a + gcount b
  | .star a => gcount a
  | .group a => gcount a + 1

/-- Greedy iteration of a matcher `f`: try one iteration that consumes
at least one character followed by further iterations, and only then
the empty iteration.  `n` bounds the number of iterations; since each
one consumes input, `s.length` iterations always suffice. -/
def starRun (f : Str → List (Str × List (Nat × Str))) :
    Nat → Str → List (Str × List (Nat × Str))
  | 0, s => [(s, [])]
  | n + 1, s =>
    (((f s).filter (fun p => p.1.length < s.length)).flatMap
      (fun p => (starRun f n p.1).map (fun q => (q.1, q.2 ++ p.2)))) ++ [(s, [])]

/-- All ways a regex can match a prefix of `s`, in Python's backtracking
preference order (head = the match `re` reports).  Each result is the
remaining suffix together with the captures `(group index, captured
text)` recorded so far, most recent first.  `base` is the index of the
first group inside the regex. -/
def mrun : Regex → Nat → Str → List (Str × List (Nat × Str))
  | .eps, _, s => [(s, [])]
  | .ch _, _, [] => []
  | .ch c, _, x :: xs => if x = c then [(xs, [])] else []
  | .digit, _, [] => []
  | .digit, _, x :: xs => if x.isDigit then [(xs, [])] else []
  | .dot, _, [] => []
  | .dot, _, x :: xs => if x = '\n' then [] else [(xs, [])]
  | .seq a b, base, s =>
      (mrun a base s).flatMap (fun p =>
        (mrun b (base + gcount a) p.1).map (fun q => (q.1, q.2 ++ p.2)))
  | .alt a b, base, s =>
      mrun a base s ++ mrun b (base + gcount a) s
  | .group a, base, s =>
      (mrun a (base + 1) s).map
        (fun p => (p.1, (base, s.take (s.length - p.1.length)) :: p.2))
  | .star a, base, s => starRun (mrun a base) s.length s

/-- All matches of `r` anchored at the start of `t`, with group
numbering starting at 1. -/
def matchRes (r : Regex) (t : Str) : List (Str × List (Nat × Str)) :=
  mrun r 1 t

/-- `re.search`: try each start position left to right, and at the first
position with a match return the captures of the preferred match. -/
def searchAux (r : Regex) : Str → Option (List (Nat × Str))
  | [] => (matchRes r []).head?.map Prod.snd
  | c :: xs =>
    match (matchRes r (c :: xs)).head? with
    | some p => some p.2
    | none => searchAux r xs

/-- The value of capturing group 1 in a capture list (`none` when the
group did not participate in the match). -/
def capOne (caps : List (Nat × Str)) : Option Str :=
  (caps.find? (fun p => p.1 == 1)).map Prod.snd

/-- `match.group(1)` as used by `get_version`: on a pattern with no
capturing group Python raises `IndexError`, which the surrounding
`try`/`except` turns into a `None` result; otherwise the slot of
group 1 is returned. -/
def pyGroupOne (pat : Regex) (caps : List (Nat × Str)) : Option Str :=
  if gcount pat = 0 then none else capOne caps

/-! Specification-side view of searching, used to state leftmostness. -/

/-- Whether the pattern matches starting at offset `k` of `s`. -/
def matchesFromB (r : Regex) (s : Str) (k : Nat) : Bool :=
  !(matchRes r (s.drop k)).isEmpty

/-- Whether the pattern matches anywhere in `s`. -/
def hasMatchB (r : Regex) (s : Str) : Bool :=
  (List.range (s.length + 1)).any (matchesFromB r s)

/-- Offset of the leftmost match of `r` in `s`, if any. -/
def leftmostPos (r : Regex) (s : Str) : Option Nat :=
  (List.range (s.length + 1)).find? (matchesFromB r s)

/-- First capturing group of the preferred match at offset `k`. -/
def groupAtPos (r : Regex) (s : Str) (k : Nat) : Option Str :=
  match (matchRes r (s.drop k)).head? with
  | some p => capOne p.2
  | none => none

/-- `\d+` -/
def digitsPlus : Regex := rplus .digit

/-! ## String helpers (`' '.join`, `in`, `str.replace`, `str.startswith`) -/

/-- `' '.join(parts)` -/
def joinSpace : List Str → Str
  | [] => []
  | [x] => x
  | x :: y :: rest => x ++ ' ' :: joinSpace (y :: rest)

/-- Python `sub in s` (substring containment). -/
def containsSub (s sub : Str) : Bool :=
  match s with
  | [] => sub.isEmpty
  | _ :: rest => sub.isPrefixOf s || containsSub rest sub

/-- Core of `str.replace`: `n` bounds the number of characters still to
scan (the remaining string is always at most `n` long at every call, so
the `0` case with input left over is never reached from `replaceAll`). -/
def replaceAllAux (sub repl : Str) : Nat → Str → Str
  | 0, s => s
  | n + 1, s =>
    match s with
    | [] => []
    | c :: rest =>
      if !sub.isEmpty && sub.isPrefixOf (c :: rest) then
        repl ++ replaceAllAux sub repl n (rest.drop (sub.length - 1))
      else
        c :: replaceAllAux sub repl n rest

/-- Python `s.replace(sub, repl)`: replace all non-overlapping
occurrences, scanning left to right (`sub` is nonempty at every use
site: the literal `{path}`). -/
def replaceAll (s sub repl : Str) : Str :=
  replaceAllAux sub repl s.length s

/-- Python `s.startswith(p)`. -/
def startsWith (p s : Str) : Bool := p.isPrefixOf s

/-! ## `shlex.split` (POSIX mode, whitespace splitting, no comments) -/

/-- The `shlex.whitespace` characters. -/
def isWs (c : Char) : Bool := c = ' ' || c = '\t' || c = '\r' || c = '\n'

/-- Lexer mode: outside quotes, inside `'...'`, inside `"..."`. -/
inductive LexState where
  | norm
  | squote
  | dquote
deriving DecidableEq

/-- Core of `shlex.split` in POSIX mode: `cur` is the current token
(reversed), `started` whether a token is in progress (a pair of quotes
alone starts an empty token), `acc` the finished tokens (reversed).
Unbalanced quoting and a trailing escape raise `ValueError`, embedded
as `Except.error` with Python's message. -/
def shlexAux : List Char → LexState → Str → Bool → List Str → Except Str (List Str)
  | [], .norm, cur, started, acc =>
    .ok ((if started then cur.reverse :: acc else acc).reverse)
  | [], .squote, _, _, _ => .error "No closing quotation".data
  | [], .dquote, _, _, _ => .error "No closing quotation".data
  | c :: rest, .norm, cur, started, acc =>
    if isWs c then
      if started then shlexAux rest .norm [] false (cur.reverse :: acc)
      else shlexAux rest .norm [] false acc
    else if c = '\'' then shlexAux rest .squote cur true acc
    else if c = '"' then shlexAux rest .dquote cur true acc
    else if c = '\\' then
      match rest with
      | [] => .error "No escaped character".data
      | d :: rest2 => shlexAux rest2 .norm (d :: cur) true acc
    else shlexAux rest .norm (c :: cur) true acc
  | c :: rest, .squote, cur, started, acc =>
    if c = '\'' then shlexAux rest .norm cur started acc
    else shlexAux rest .squote (c :: cur) started acc
  | c :: rest, .dquote, cur, started, acc =>
    if c = '"' then shlexAux rest .norm cur started acc
    else if c = '\\' then
      match rest with
      | [] => .error "No escaped character".data
      | d :: rest2 =>
        if d = '\\' || d = '"' then shlexAux rest2 .dquote (d :: cur) started acc
        else shlexAux rest2 .dquote (d :: '\\' :: cur) started acc
    else shlexAux rest .dquote (c :: cur) started acc

/-- `shlex.split(s)` (POSIX rules, comments disabled). -/
def shlexSplit (s : Str) : Except Str (List Str) :=
  shlexAux s .norm [] false []

/-! ## `DynamicPlugin.run_command` -/

/-- The `(stdout, stderr, returncode)` triple `run_command` returns. -/
structure CmdResult where
  stdout : Str
  stderr : Str
  exitCode : Int
deriving DecidableEq

/-- A request issued to `subprocess.run`: either a single string run
through a shell (`shell=True`) or an argument vector, each with the
timeout in seconds passed along. -/
inductive ExecReq where
  | shell (cmdStr : Str) (timeoutSecs : Nat)
  | vector (argv : List Str) (timeoutSecs : Nat)
deriving DecidableEq

/-- Outcome of one `subprocess.run` call: normal completion with
captured output, `TimeoutExpired`, or any other `OSError`-style
exception carrying its message. -/
inductive ExecOutcome where
  | completed (stdout stderr : Str) (code : Int)
  | timeout
  | osError (msg : Str)
deriving DecidableEq

/-- The state of the outside world as seen by `subprocess.run`:
a fixed outcome for every possible request. -/
def Exec : Type := ExecReq → ExecOutcome

/-- How `run_command` turns one `subprocess.run` outcome into its
result triple: completion passes the captured streams through,
`TimeoutExpired` and other exceptions become synthetic results via the
`except` clauses. -/
def settle : ExecOutcome → CmdResult
  | .completed o e c => ⟨o, e, c⟩
  | .timeout => ⟨[], "Command timeout".data, 1⟩
  | .osError m => ⟨[], m, 1⟩

/-- The `cmd` argument of `run_command`: a `str` or a `list`. -/
inductive Cmd where
  | str (s : Str)
  | list (args : List Str)
deriving DecidableEq

/-- `DynamicPlugin.run_command`: join list commands with spaces to test
for `'|'`; with a pipe present run the joined string through the shell,
otherwise split a string command with `shlex.split` (a `ValueError`
there is caught by the `except` clause) and run an argument vector.
Returns the result triple together with the request actually issued
(`none` when `shlex.split` failed and nothing ran). -/
def run_command (exec : Exec) (cmd : Cmd) : CmdResult × Option ExecReq :=
  let cmdStr := match cmd with
    | .list args => joinSpace args
    | .str s => s
  if '|' ∈ cmdStr then
    let req := ExecReq.shell cmdStr 30
    (settle (exec req), some req)
  else
    match cmd with
    | .str s =>
      match shlexSplit s with
      | .error m => (⟨[], m, 1⟩, none)
      | .ok argv =>
        let req := ExecReq.vector argv 30
        (settle (exec req), some req)
    | .list args =>
      let req := ExecReq.vector args 30
      (settle (exec req), some req)

/-- The default version pattern of `get_version`:
`(\d+\.\d+\.\d+)` . -/
def defaultVersionRegex : Regex :=
  .group (.seq digitsPlus (.seq (.ch '.') (.seq digitsPlus (.seq (.ch '.') digitsPlus))))

/-! ## Plugin configuration and application records -/

/-- The shapes the JSON field `version_command` can take: a string or a
list of argument strings. -/
inductive VersionCmd where
  | str (s : Str)
  | list (args : List Str)
deriving DecidableEq

/-- A server-supplied application configuration, as consumed by
`DynamicPlugin` (`.get` fields are optional; regex patterns are
embedded as their syntax trees). -/
structure AppConfig where
  name : Str
  display_name : Option Str
  default_paths : List Str
  version_command : Option VersionCmd
  version_regex : Option Regex
deriving DecidableEq

/-- The `ApplicationInfo` dataclass. -/
structure ApplicationInfo where
  name : Str
  version : Str
  path : Str
  detection_method : Str
  detected_at : Str
deriving DecidableEq

/-- `DynamicPlugin`: its `__init__` merely stores the configurations
(the agent config and logger play no part in the discovery logic). -/
structure DynamicPlugin where
  app_config : AppConfig
deriving DecidableEq

/-- `DynamicPlugin.__init__` through `load_plugins`' `try`/`except`:
the constructor body performs no validation and cannot fail, so
construction always succeeds. -/
def dynamicPluginInit (app_config : AppConfig) : Except Str DynamicPlugin :=
  .ok ⟨app_config⟩

/-- The command-building steps of `get_version` (lines 406-420): a
string containing `'|'` is kept as a shell pipeline string with
`{path}` substituted when present; otherwise a string starting with
`--` or `-` becomes `[path, flag]`; any other string is `shlex.split`
(whose `ValueError` propagates to `get_version`'s handler, hence
`Except`), giving `[path] + parts[1:]` when more than one token exists
and `[path, "--version"]` otherwise; a list becomes `[path] + list`. -/
def build_version_cmd (path : Str) (version_cmd : VersionCmd) : Except Str Cmd :=
  match version_cmd with
  | .str s =>
    if '|' ∈ s then
      if containsSub s "{path}".data then
        .ok (.str (replaceAll s "{path}".data path))
      else
        .ok (.str s)
    else if startsWith "--".data s || startsWith "-".data s then
      .ok (.list [path, s])
    else
      match shlexSplit s with
      | .error m => .error m
      | .ok cmd_parts =>
        .ok (.list (if 1 < cmd_parts.length then path :: cmd_parts.drop 1
                    else [path, "--version".data]))
  | .list l => .ok (.list (path :: l))

/-- The extraction tail of `get_version` (lines 425-433): search the
pattern in stdout, and only when that does not match, in stderr; a
match yields `group(1)` (with the `IndexError` of a group-less pattern
swallowed by the `except` clause into a `None` result). -/
def extract_version (pat : Regex) (so se : Str) : Option Str :=
  match searchAux pat so with
  | some caps => pyGroupOne pat caps
  | none =>
    match searchAux pat se with
    | some caps => pyGroupOne pat caps
    | none => none

/-- `DynamicPlugin.get_version`: build the probe command (default
`"--version"`), run it, and when the exit code is 0 extract a version
with the configured pattern (default `(\d+\.\d+\.\d+)`); every failure
path yields `None`. -/
def get_version (cfg : AppConfig) (exec : Exec) (path : Str) : Option Str :=
  match build_version_cmd path (cfg.version_command.getD (.str "--version".data)) with
  | .error _ => none
  | .ok cmd =>
    if (run_command exec cmd).1.exitCode = 0 then
      extract_version (cfg.version_regex.getD defaultVersionRegex)
        (run_command exec cmd).1.stdout (run_command exec cmd).1.stderr
    else none

/-- Python truthiness of `get_version`'s result as tested by
`if version:` — `None` and the empty string are falsy. -/
def truthyStr : Option Str → Bool
  | none => false
  | some s => !s.isEmpty

/-- `DynamicPlugin.discover`: for each configured path that exists on
the filesystem (`fs`), probe it, and on a truthy version emit an
`ApplicationInfo` with `detection_method = "dynamic_plugin"` and the
creation-time timestamp `now`. -/
def discover (cfg : AppConfig) (fs : Str → Bool) (exec : Exec) (now : Str) :
    List ApplicationInfo :=
  cfg.default_paths.filterMap (fun path =>
    if fs path then
      match get_version cfg exec path with
      | some v =>
        if v.isEmpty then none
        else some ⟨cfg.name, v, path, "dynamic_plugin".data, now⟩
      | none => none
    else none)

/-- An `ApplicationInfo` with its `detected_at` timestamp forgotten. -/
def stripTime (a : ApplicationInfo) : Str × Str × Str × Str :=
  (a.name, a.version, a.path, a.detection_method)

/-! ## HTTP layer (`VersionOpsAgent`) -/

/-- Outcome of one HTTP call: a status code, a
`requests.exceptions.ConnectionError`, or any other exception. -/
inductive HttpResp where
  | status (code : Nat)
  | connError
  | exn (msg : Str)
deriving DecidableEq

/-- `true` exactly when the call completed with some HTTP status. -/
def isStatusB : HttpResp → Bool
  | .status _ => true
  | _ => false

/-- Observable effects of one agent run: the token-probe GET issued by
`authenticate`, the configuration fetch of `load_plugins`, the
registration POST, a plugin's `discover()` being invoked, and one
per-record application POST. -/
inductive Event where
  | authProbe
  | fetchConfigs
  | registerPost
  | discoverCall (pluginName : Str)
  | reportPost (app : ApplicationInfo)
deriving DecidableEq

/-- The backend's behaviour during one run: the response to the
authentication probe, to the configuration fetch (status plus decoded
body), to the registration POST (status plus the `host_id` field of
the JSON reply), and to the `i`-th application POST. -/
structure HttpEnv where
  authResp : HttpResp
  configsStatus : HttpResp
  configsBody : List AppConfig
  registerStatus : HttpResp
  registerHostId : Option Str
  reportResp : Nat → HttpResp

/-- The parts of the agent configuration the embedded control flow
reads. -/
structure AgentConfig where
  backend_url : Str
  service_token : Str
  hostname : Str

/-- `VersionOpsAgent.authenticate`: without a configured token no
request is made; otherwise the probe GET is issued and only HTTP 200
authenticates — 401, 403, any other status, connection errors and
other exceptions all return `False`. -/
def authenticate (cfg : AgentConfig) (resp : HttpResp) : Bool × List Event :=
  if cfg.service_token.isEmpty then (false, [])
  else
    (match resp with
     | .status 200 => true
     | .status 401 => false
     | .status 403 => false
     | .status _ => false
     | .connError => false
     | .exn _ => false,
     [.authProbe])

/-- Python `dict` insertion: overwrite in place on an existing key,
append otherwise. -/
def pluginInsert : List (Str × AppConfig) → Str → AppConfig → List (Str × AppConfig)
  | [], k, v => [(k, v)]
  | (k0, v0) :: rest, k, v =>
    if k0 = k then (k, v) :: rest else (k0, v0) :: pluginInsert rest k v

/-- `VersionOpsAgent.load_plugins`: on HTTP 200 build the plugin
dictionary keyed by configuration name (plugin construction itself
never fails); on any other status or exception the plugin set stays
empty. -/
def load_plugins (env : HttpEnv) : List (Str × AppConfig) × List Event :=
  match env.configsStatus with
  | .status 200 =>
    (env.configsBody.foldl (fun m c => pluginInsert m c.name c) [], [.fetchConfigs])
  | _ => ([], [.fetchConfigs])

/-- `VersionOpsAgent.register_host`: HTTP 200 stores the `host_id`
field of the reply (which may itself be absent) and succeeds; any
other status or exception fails with no host id assigned. -/
def register_host (env : HttpEnv) : Bool × Option Str × List Event :=
  match env.registerStatus with
  | .status 200 => (true, env.registerHostId, [.registerPost])
  | _ => (false, none, [.registerPost])

/-- The reporting loop of `report_applications`: POST each record in
order; any completed status (200 or not) moves on to the next record,
while an exception aborts the sequence with `False`. -/
def reportLoop (resp : Nat → HttpResp) : Nat → List ApplicationInfo → Bool × List Event
  | _, [] => (true, [])
  | i, a :: rest =>
    match resp i with
    | .status _ =>
      let r := reportLoop resp (i + 1) rest
      (r.1, Event.reportPost a :: r.2)
    | _ => (false, [])

/-- Python truthiness of the stored host id (`if not self.host_id`). -/
def truthyOpt : Option Str → Bool
  | none => false
  | some s => !s.isEmpty

/-- `VersionOpsAgent.report_applications`: with a falsy host id return
`False` immediately and contact nothing; otherwise run the reporting
loop. -/
def report_applications (hostId : Option Str) (resp : Nat → HttpResp)
    (apps : List ApplicationInfo) : Bool × List Event :=
  if truthyOpt hostId then reportLoop resp 0 apps else (false, [])

/-- `VersionOpsAgent.discover_applications`: run every plugin in
dictionary order and concatenate the discovered records. -/
def discover_applications (plugins : List (Str × AppConfig)) (fs : Str → Bool)
    (exec : Exec) (now : Str) : List ApplicationInfo × List Event :=
  match plugins with
  | [] => ([], [])
  | (n, c) :: rest =>
    let r := discover_applications rest fs exec now
    (discover c fs exec now ++ r.1, .discoverCall n :: r.2)

/-- `VersionOpsAgent.collection_cycle`: discover, then report only when
something was discovered. -/
def collection_cycle (hostId : Option Str) (env : HttpEnv)
    (plugins : List (Str × AppConfig)) (fs : Str → Bool) (exec : Exec)
    (now : Str) : List Event :=
  let d := discover_applications plugins fs exec now
  if d.1.isEmpty then d.2
  else d.2 ++ (report_applications hostId env.reportResp d.1).2

/-- `VersionOpsAgent.run_once`: authenticate (failure returns exit code
1 at once), load plugins, register the host (failure returns 1), then
run one collection cycle and return 0.  The second component is the
trace of observable effects. -/
def run_once (cfg : AgentConfig) (env : HttpEnv) (fs : Str → Bool)
    (exec : Exec) (now : Str) : Int × List Event :=
  let a := authenticate cfg env.authResp
  if !a.1 then (1, a.2)
  else
    let lp := load_plugins env
    let rh := register_host env
    if !rh.1 then (1, a.2 ++ lp.2 ++ rh.2.2)
    else (0, a.2 ++ lp.2 ++ rh.2.2 ++ collection_cycle rh.2.1 env lp.1 fs exec now)

/-- The timeout argument carried by a `subprocess.run` request. -/
def reqTimeout : ExecReq → Nat
  | .shell _ t => t
  | .vector _ t => t

/-! ## Concrete fixtures used to instantiate the theorems -/

/-- A world in which every command completes with stdout `1.2.3` and
exit code 0. -/
def fixExecV : Exec := fun _ => .completed "1.2.3".data [] 0

/-- A world in which every command times out. -/
def fixExecT : Exec := fun _ => .timeout

/-- A descriptor with only defaults: probe `--version`, pattern
`(\d+\.\d+\.\d+)`, one candidate path. -/
def fixCfgDefault : AppConfig :=
  { name := "app".data, display_name := none,
    default_paths := ["/bin/app".data],
    version_command := none, version_regex := none }

/-- `(\d+\.\d+\.\d+)` without its capturing group — a pattern that
violates the at-least-one-group requirement. -/
def fixNoGroupPat : Regex :=
  .seq digitsPlus (.seq (.ch '.') (.seq digitsPlus (.seq (.ch '.') digitsPlus)))

/-- The default descriptor with the group-less pattern installed. -/
def fixCfgNoGroup : AppConfig :=
  { fixCfgDefault with version_regex := some fixNoGroupPat }

/-- A filesystem on which exactly `/bin/app` exists. -/
def fixFs : Str → Bool := fun p => p == "/bin/app".data

/-- The record the default descriptor discovers at `/bin/app` in the
`fixExecV` world at time `t0`. -/
def fixApp : ApplicationInfo :=
  ⟨"app".data, "1.2.3".data, "/bin/app".data, "dynamic_plugin".data, "t0".data⟩

/-- Three distinct records to report. -/
def fixApps3 : List ApplicationInfo :=
  [⟨"a".data, "1.0.0".data, "/bin/a".data, "dynamic_plugin".data, "t0".data⟩,
   ⟨"b".data, "2.0.0".data, "/bin/b".data, "dynamic_plugin".data, "t0".data⟩,
   ⟨"c".data, "3.0.0".data, "/bin/c".data, "dynamic_plugin".data, "t0".data⟩]

/-- A backend that answers every application POST with HTTP 200. -/
def fixResp200 : Nat → HttpResp := fun _ => .status 200

/-- A backend that answers the second application POST with HTTP 500
and every other one with 200. -/
def fixResp500mid : Nat → HttpResp := fun i => .status (if i = 1 then 500 else 200)

/-- A backend whose authentication probe answers HTTP 401. -/
def fixEnv401 : HttpEnv :=
  { authResp := .status 401, configsStatus := .status 200, configsBody := [],
    registerStatus := .status 200, registerHostId := some "h".data,
    reportResp := fun _ => .status 200 }

/-- A backend that accepts registration (HTTP 200) but assigns the
empty string as `host_id`, and accepts every other call. -/
def fixEnvEmptyId : HttpEnv :=
  { authResp := .status 200, configsStatus := .status 200, configsBody := [],
    registerStatus := .status 200, registerHostId := some [],
    reportResp := fun _ => .status 200 }

/-- An agent configuration with a token configured. -/
def fixAgentCfg : AgentConfig :=
  { backend_url := "http://backend".data, service_token := "tok".data,
    hostname := "host1".data }

end VAgent

deriving instance DecidableEq for Except

namespace VAgent

/-! ## Search lemmas: leftmostness of `re.search` -/

/-- Offsets shift by one when the head character is dropped. -/
theorem matchesFromB_cons_succ (r : Regex) (c : Char) (xs : Str) (k : Nat) :
    matchesFromB r (c :: xs) (k + 1) = matchesFromB r xs k := rfl

/-- `find?` over `range n` returns the least satisfying index. -/
theorem find?_range_min :
    ∀ (n : Nat) (p : Nat → Bool) (k : Nat), (List.range n).find? p = some k →
      p k = true ∧ ∀ j < k, p j = false := by
  intro n
  induction n with
  | zero => intro p k h; simp [List.range_zero] at h
  | succ m ih =>
    intro p k h
    rw [List.range_succ_eq_map] at h
    by_cases h0 : p 0
    · rw [List.find?_cons_of_pos _ h0] at h
      cases h
      exact ⟨h0, by intro j hj; omega⟩
    · rw [List.find?_cons_of_neg _ (by simpa using h0), List.find?_map] at h
      cases hk : (List.range m).find? (p ∘ Nat.succ) with
      | none => rw [hk] at h; simp at h
      | some k' =>
        rw [hk] at h
        simp only [Option.map_some'] at h
        cases h
        obtain ⟨hpk, hmin⟩ := ih (p ∘ Nat.succ) k' hk
        refine ⟨hpk, ?_⟩
        intro j hj
        cases j with
        | zero => simpa using h0
        | succ j' => exact hmin j' (by omega)

/-- The leftmost position satisfies the match predicate and is minimal. -/
theorem leftmostPos_spec (r : Regex) (s : Str) (k : Nat)
    (h : leftmostPos r s = some k) :
    matchesFromB r s k = true ∧ ∀ j < k, matchesFromB r s j = false :=
  find?_range_min _ _ _ h

/-- `leftmostPos` on the empty string. -/
theorem leftmostPos_nil (r : Regex) :
    leftmostPos r [] = if matchesFromB r [] 0 then some 0 else none := by
  unfold leftmostPos
  by_cases h : matchesFromB r [] 0
  · rw [show List.range ([] : Str).length.succ = [0] from rfl,
       List.find?_cons_of_pos _ h, if_pos h]
  · rw [show List.range ([] : Str).length.succ = [0] from rfl,
       List.find?_cons_of_neg _ (by simpa using h), if_neg h]
    rfl

/-- `leftmostPos` on a cons cell: position 0 first, then the shifted
leftmost position in the tail. -/
theorem leftmostPos_cons (r : Regex) (c : Char) (xs : Str) :
    leftmostPos r (c :: xs) =
      if matchesFromB r (c :: xs) 0 then some 0
      else (leftmostPos r xs).map Nat.succ := by
  unfold leftmostPos
  rw [List.length_cons, List.range_succ_eq_map]
  by_cases h : matchesFromB r (c :: xs) 0
  · rw [List.find?_cons_of_pos _ h, if_pos h]
  · rw [List.find?_cons_of_neg _ (by simpa using h), List.find?_map, if_neg h]
    rfl

/-- `searchAux` computes the captures of the preferred match at the
leftmost matching position. -/
theorem searchAux_eq (r : Regex) :
    ∀ s : Str, searchAux r s =
      match leftmostPos r s with
      | some k => ((matchRes r (s.drop k)).head?).map Prod.snd
      | none => none := by
  intro s
  induction s with
  | nil =>
    rw [leftmostPos_nil]
    by_cases h : matchesFromB r [] 0
    · rw [if_pos h]
      rfl
    · rw [if_neg h]
      unfold searchAux
      unfold matchesFromB at h
      cases hm : matchRes r (([] : Str).drop 0) with
      | nil => rw [show matchRes r ([] : Str) = [] from hm]; rfl
      | cons a t => rw [hm] at h; simp at h
  | cons c xs ih =>
    rw [leftmostPos_cons]
    by_cases h : matchesFromB r (c :: xs) 0
    · rw [if_pos h]
      unfold matchesFromB at h
      cases hm : matchRes r ((c :: xs).drop 0) with
      | nil => rw [hm] at h; simp at h
      | cons a t =>
        unfold searchAux
        rw [show matchRes r (c :: xs) = a :: t from hm]
        show some a.2 = ((matchRes r ((c :: xs).drop 0)).head?).map Prod.snd
        rw [hm]
        rfl
    · rw [if_neg h]
      unfold matchesFromB at h
      have hm : matchRes r (c :: xs) = [] := by
        cases hm : matchRes r ((c :: xs).drop 0) with
        | nil => exact hm
        | cons a t => rw [hm] at h; simp at h
      unfold searchAux
      rw [show matchRes r (c :: xs) = [] from hm]
      simp only [List.head?_nil]
      rw [ih]
      cases leftmostPos r xs with
      | none => rfl
      | some k => rfl

/-- A pattern matches somewhere iff a leftmost position exists. -/
theorem hasMatchB_iff_leftmost (r : Regex) (s : Str) :
    hasMatchB r s = true ↔ (leftmostPos r s).isSome = true := by
  unfold hasMatchB leftmostPos
  rw [List.any_eq_true, List.find?_isSome]

/-- Iterating a capture-free matcher produces no captures. -/
theorem starRun_caps_nil (f : Str → List (Str × List (Nat × Str)))
    (hf : ∀ s p, p ∈ f s → p.2 = []) :
    ∀ (n : Nat) (s : Str) (p), p ∈ starRun f n s → p.2 = [] := by
  intro n
  induction n with
  | zero =>
    intro s p hp
    simp only [starRun, List.mem_singleton] at hp
    rw [hp]
  | succ m ih =>
    intro s p hp
    simp only [starRun, List.mem_append, List.mem_flatMap, List.mem_map,
      List.mem_filter, List.mem_singleton] at hp
    rcases hp with ⟨a, ⟨ha, _⟩, q, hq, hpq⟩ | hp
    · rw [← hpq]
      simp [ih a.1 q hq, hf s a ha]
    · rw [hp]

/-- A pattern without capturing groups records no captures. -/
theorem mrun_gcount_zero :
    ∀ (r : Regex), gcount r = 0 →
      ∀ (base : Nat) (s : Str) (p), p ∈ mrun r base s → p.2 = [] := by
  intro r
  induction r with
  | eps =>
    intro _ base s p hp
    simp only [mrun, List.mem_singleton] at hp
    rw [hp]
  | ch c =>
    intro _ base s p hp
    cases s with
    | nil => simp [mrun] at hp
    | cons x xs =>
      by_cases hx : x = c
      · subst hx
        simp [mrun] at hp
        rw [hp]
      · simp [mrun, hx] at hp
  | digit =>
    intro _ base s p hp
    cases s with
    | nil => simp [mrun] at hp
    | cons x xs =>
      by_cases hx : x.isDigit
      · simp [mrun, hx] at hp
        rw [hp]
      · simp [mrun, hx] at hp
  | dot =>
    intro _ base s p hp
    cases s with
    | nil => simp [mrun] at hp
    | cons x xs =>
      by_cases hx : x = '\n'
      · simp [mrun, hx] at hp
      · simp [mrun, hx] at hp
        rw [hp]
  | seq a b iha ihb =>
    intro hg base s p hp
    have hga : gcount a = 0 := by simp [gcount] at hg; omega
    have hgb : gcount b = 0 := by simp [gcount] at hg; omega
    simp only [mrun, List.mem_flatMap, List.mem_map] at hp
    rcases hp with ⟨x, hx, q, hq, hpq⟩
    rw [← hpq]
    simp [iha hga base s x hx, ihb hgb (base + gcount a) x.1 q hq]
  | alt a b iha ihb =>
    intro hg base s p hp
    have hga : gcount a = 0 := by simp [gcount] at hg; omega
    have hgb : gcount b = 0 := by simp [gcount] at hg; omega
    simp only [mrun, List.mem_append] at hp
    rcases hp with hp | hp
    · exact iha hga base s p hp
    · exact ihb hgb (base + gcount a) s p hp
  | star a iha =>
    intro hg base s p hp
    have hga : gcount a = 0 := by simpa [gcount] using hg
    exact starRun_caps_nil (mrun a base) (fun t q hq => iha hga base t q hq)
      s.length s p hp
  | group a iha =>
    intro hg
    simp [gcount] at hg

/-- On captures coming from an actual match, `group(1)` and the
capture-list lookup agree (a group-less pattern records nothing). -/
theorem pyGroupOne_head (pat : Regex) (t : Str) (p : Str × List (Nat × Str))
    (hp : (matchRes pat t).head? = some p) :
    pyGroupOne pat p.2 = capOne p.2 := by
  by_cases h : gcount pat = 0
  · have hmem : p ∈ matchRes pat t := List.mem_of_mem_head? (by simp [hp])
    have h2 : p.2 = [] := mrun_gcount_zero pat h 1 t p hmem
    rw [h2]
    simp [pyGroupOne, capOne]
  · simp [pyGroupOne, h]

/-- `searchAux` succeeds exactly when the pattern matches somewhere. -/
theorem searchAux_isSome_iff (r : Regex) (s : Str) :
    (searchAux r s).isSome = true ↔ hasMatchB r s = true := by
  rw [searchAux_eq, hasMatchB_iff_leftmost]
  cases hl : leftmostPos r s with
  | none => simp
  | some k =>
    have hk := (leftmostPos_spec r s k hl).1
    unfold matchesFromB at hk
    cases hm : matchRes r (s.drop k) with
    | nil => rw [hm] at hk; simp at hk
    | cons a t => simp [hm]

end VAgent

namespace VAgent

/-- Claim C3: for every captured stdout, stderr and version pattern,
extraction applies the pattern to stdout first: if it matches stdout,
the result is the first capturing group of the leftmost stdout match;
otherwise, if it matches stderr, the result is the first capturing
group of the leftmost stderr match; otherwise nothing is returned. -/
theorem extract_version_spec (pat : Regex) (so se : Str) :
    (hasMatchB pat so = true →
      ∃ k, leftmostPos pat so = some k ∧ (∀ j < k, matchesFromB pat so j = false) ∧
        matchesFromB pat so k = true ∧
        extract_version pat so se = groupAtPos pat so k)
    ∧ (hasMatchB pat so = false → hasMatchB pat se = true →
      ∃ k, leftmostPos pat se = some k ∧ (∀ j < k, matchesFromB pat se j = false) ∧
        matchesFromB pat se k = true ∧
        extract_version pat so se = groupAtPos pat se k)
    ∧ (hasMatchB pat so = false → hasMatchB pat se = false →
        extract_version pat so se = none) := by
  have hsome : ∀ (s : Str), hasMatchB pat s = true →
      ∃ k, leftmostPos pat s = some k ∧ (∀ j < k, matchesFromB pat s j = false) ∧
        matchesFromB pat s k = true ∧
        ∃ p, (matchRes pat (s.drop k)).head? = some p ∧
          searchAux pat s = some p.2 ∧ groupAtPos pat s k = capOne p.2 := by
    intro s h
    obtain ⟨k, hk⟩ := Option.isSome_iff_exists.1 ((hasMatchB_iff_leftmost pat s).1 h)
    obtain ⟨hmk, hmin⟩ := leftmostPos_spec pat s k hk
    have hmk2 := hmk
    unfold matchesFromB at hmk2
    cases hm : matchRes pat (s.drop k) with
    | nil => rw [hm] at hmk2; simp at hmk2
    | cons a t =>
      refine ⟨k, hk, hmin, hmk, a, by rw [hm]; rfl, ?_, ?_⟩
      · rw [searchAux_eq, hk]
        show ((matchRes pat (s.drop k)).head?).map Prod.snd = some a.2
        rw [hm]
        rfl
      · unfold groupAtPos
        rw [hm]
        rfl
  have hnone : ∀ (s : Str), hasMatchB pat s = false → searchAux pat s = none := by
    intro s h
    rw [searchAux_eq]
    cases hl : leftmostPos pat s with
    | none => rfl
    | some k =>
      have h2 : (leftmostPos pat s).isSome = true := by rw [hl]; rfl
      rw [← hasMatchB_iff_leftmost, h] at h2
      simp at h2
  refine ⟨?_, ?_, ?_⟩
  · intro h
    obtain ⟨k, hk, hmin, hmk, p, hp, hsa, hgp⟩ := hsome so h
    refine ⟨k, hk, hmin, hmk, ?_⟩
    unfold extract_version
    rw [hsa]
    show pyGroupOne pat p.2 = groupAtPos pat so k
    rw [hgp]
    exact pyGroupOne_head pat (so.drop k) p hp
  · intro h1 h2
    obtain ⟨k, hk, hmin, hmk, p, hp, hsa, hgp⟩ := hsome se h2
    refine ⟨k, hk, hmin, hmk, ?_⟩
    unfold extract_version
    rw [hnone so h1, hsa]
    show pyGroupOne pat p.2 = groupAtPos pat se k
    rw [hgp]
    exact pyGroupOne_head pat (se.drop k) p hp
  · intro h1 h2
    unfold extract_version
    rw [hnone so h1, hnone se h2]

/-- Witness for claim C3 at a concrete pattern and output pair. -/
theorem extract_version_spec_witness :
    hasMatchB defaultVersionRegex "v 1.2.3".data = true
    ∧ (∃ k, leftmostPos defaultVersionRegex "v 1.2.3".data = some k
        ∧ (∀ j < k, matchesFromB defaultVersionRegex "v 1.2.3".data j = false)
        ∧ matchesFromB defaultVersionRegex "v 1.2.3".data k = true
        ∧ extract_version defaultVersionRegex "v 1.2.3".data [] =
            groupAtPos defaultVersionRegex "v 1.2.3".data k) :=
  ⟨by decide, (extract_version_spec defaultVersionRegex "v 1.2.3".data []).1 (by decide)⟩

end VAgent

namespace VAgent

/-- Claim C1: every record `discover` produces corresponds to a
candidate path that exists on the filesystem, whose probe command
(as built from the configured probe) exits with status 0, and whose
captured stdout or stderr contains a match of the configured version
pattern; no record arises otherwise. -/
theorem discover_sound (cfg : AppConfig) (fs : Str → Bool) (exec : Exec) (now : Str) :
    ∀ app ∈ discover cfg fs exec now,
      fs app.path = true ∧
      ∃ cmd, build_version_cmd app.path (cfg.version_command.getD (.str "--version".data)) = .ok cmd ∧
        (run_command exec cmd).1.exitCode = 0 ∧
        (hasMatchB (cfg.version_regex.getD defaultVersionRegex) (run_command exec cmd).1.stdout = true ∨
         hasMatchB (cfg.version_regex.getD defaultVersionRegex) (run_command exec cmd).1.stderr = true) := by
  intro app happ
  unfold discover at happ
  rw [List.mem_filterMap] at happ
  obtain ⟨path, _hpl, hf⟩ := happ
  by_cases hfs : fs path
  case neg => simp [hfs] at hf
  case pos =>
    simp only [hfs, if_true] at hf
    cases hv : get_version cfg exec path with
    | none => rw [hv] at hf; simp at hf
    | some v =>
      rw [hv] at hf
      by_cases hve : v.isEmpty
      · simp [hve] at hf
      · simp only [hve, Bool.false_eq_true, if_false, Option.some.injEq] at hf
        subst hf
        refine ⟨hfs, ?_⟩
        unfold get_version at hv
        cases hb : build_version_cmd path
            (cfg.version_command.getD (VersionCmd.str ['-', '-', 'v', 'e', 'r', 's', 'i', 'o', 'n'])) with
        | error m => rw [hb] at hv; simp at hv
        | ok cmd =>
          rw [hb] at hv
          replace hv : (if (run_command exec cmd).1.exitCode = 0 then
              extract_version (cfg.version_regex.getD defaultVersionRegex)
                (run_command exec cmd).1.stdout (run_command exec cmd).1.stderr
            else none) = some v := hv
          by_cases hec : (run_command exec cmd).1.exitCode = 0
          · refine ⟨cmd, rfl, hec, ?_⟩
            rw [if_pos hec] at hv
            unfold extract_version at hv
            cases hso : searchAux (cfg.version_regex.getD defaultVersionRegex)
                (run_command exec cmd).1.stdout with
            | some caps =>
              left
              rw [← searchAux_isSome_iff, hso]
              rfl
            | none =>
              rw [hso] at hv
              cases hse : searchAux (cfg.version_regex.getD defaultVersionRegex)
                  (run_command exec cmd).1.stderr with
              | none => rw [hse] at hv; simp at hv
              | some caps =>
                right
                rw [← searchAux_isSome_iff, hse]
                rfl
          · rw [if_neg hec] at hv
            simp at hv

/-- Witness for claim C1: the default descriptor discovers `/bin/app`
in a world where the probe prints `1.2.3` on stdout. -/
theorem discover_sound_witness :
    fixApp ∈ discover fixCfgDefault fixFs fixExecV "t0".data
    ∧ (fixFs fixApp.path = true
       ∧ ∃ cmd, build_version_cmd fixApp.path
             (fixCfgDefault.version_command.getD (.str "--version".data)) = .ok cmd
           ∧ (run_command fixExecV cmd).1.exitCode = 0
           ∧ (hasMatchB (fixCfgDefault.version_regex.getD defaultVersionRegex)
                (run_command fixExecV cmd).1.stdout = true
              ∨ hasMatchB (fixCfgDefault.version_regex.getD defaultVersionRegex)
                  (run_command fixExecV cmd).1.stderr = true)) :=
  ⟨by decide, discover_sound fixCfgDefault fixFs fixExecV "t0".data fixApp (by decide)⟩

end VAgent

namespace VAgent

/-- Mapping after `filterMap` only depends on the mapped images of the
per-element results. -/
theorem map_filterMap_congr {α β γ : Type} (g : β → γ) (f f' : α → Option β)
    (h : ∀ a, (f a).map g = (f' a).map g) :
    ∀ l : List α, (l.filterMap f).map g = (l.filterMap f').map g := by
  intro l
  induction l with
  | nil => rfl
  | cons a l ih =>
    rw [List.filterMap_cons, List.filterMap_cons]
    cases hfa : f a with
    | none =>
      cases hfa' : f' a with
      | none => exact ih
      | some b =>
        have hc := h a
        rw [hfa, hfa'] at hc
        simp at hc
    | some b =>
      cases hfa' : f' a with
      | none =>
        have hc := h a
        rw [hfa, hfa'] at hc
        simp at hc
      | some b' =>
        have hc := h a
        rw [hfa, hfa'] at hc
        simp only [Option.map_some', Option.some.injEq] at hc
        rw [List.map_cons, List.map_cons, ih, hc]

/-- Claim C8: discovery is a deterministic function of the filesystem
and command oracle — two runs differing only in the creation timestamp
produce identical records once `detected_at` is ignored. -/
theorem discover_time_invariant (cfg : AppConfig) (fs : Str → Bool) (exec : Exec)
    (t1 t2 : Str) :
    (discover cfg fs exec t1).map stripTime = (discover cfg fs exec t2).map stripTime := by
  unfold discover
  apply map_filterMap_congr
  intro p
  by_cases hfs : fs p
  · rw [if_pos hfs, if_pos hfs]
    cases get_version cfg exec p with
    | none => rfl
    | some v =>
      show Option.map stripTime (if List.isEmpty v = true then none
          else some ⟨cfg.name, v, p, "dynamic_plugin".data, t1⟩) =
        Option.map stripTime (if List.isEmpty v = true then none
          else some ⟨cfg.name, v, p, "dynamic_plugin".data, t2⟩)
      by_cases hve : List.isEmpty v = true
      · rw [if_pos hve, if_pos hve]
      · rw [if_neg hve, if_neg hve]
        rfl
  · rw [if_neg hfs, if_neg hfs]

/-- Claim C10: without an assigned host id, `report_applications`
fails immediately and issues no application POST at all. -/
theorem report_applications_no_host (resp : Nat → HttpResp) (apps : List ApplicationInfo) :
    report_applications none resp apps = (false, []) := rfl

/-- Everything `authenticate` ever does is the single token probe. -/
theorem authenticate_events (cfg : AgentConfig) (resp : HttpResp) :
    ∀ e ∈ (authenticate cfg resp).2, e = Event.authProbe := by
  intro e he
  unfold authenticate at he
  by_cases ht : cfg.service_token.isEmpty
  · rw [if_pos ht] at he
    simp at he
  · rw [if_neg ht] at he
    simpa using he

/-- Claim C7: when authentication fails, `run_once` returns exit code 1
and the run's effect trace contains nothing but the token probe — no
configuration fetch, no plugin discovery, no registration and no
report POST happen. -/
theorem run_once_auth_gate (cfg : AgentConfig) (env : HttpEnv) (fs : Str → Bool)
    (exec : Exec) (now : Str)
    (h : (authenticate cfg env.authResp).1 = false) :
    (run_once cfg env fs exec now).1 = 1
    ∧ ∀ e ∈ (run_once cfg env fs exec now).2, e = Event.authProbe := by
  refine ⟨?_, ?_⟩ <;> simp only [run_once, h, Bool.not_false, if_true]
  exact authenticate_events cfg env.authResp

/-- Witness for claim C7: a backend answering the probe with HTTP 401. -/
theorem run_once_auth_gate_witness :
    (authenticate fixAgentCfg fixEnv401.authResp).1 = false
    ∧ ((run_once fixAgentCfg fixEnv401 fixFs fixExecV "t0".data).1 = 1
       ∧ ∀ e ∈ (run_once fixAgentCfg fixEnv401 fixFs fixExecV "t0".data).2,
           e = Event.authProbe) :=
  ⟨by decide, run_once_auth_gate fixAgentCfg fixEnv401 fixFs fixExecV "t0".data (by decide)⟩

/-- The joined command string contains a pipe exactly when some list
element does (joining only inserts spaces). -/
theorem joinSpace_pipe_mem : ∀ args : List Str, '|' ∈ joinSpace args ↔ ∃ x ∈ args, '|' ∈ x := by
  intro args
  induction args with
  | nil => simp [joinSpace]
  | cons x rest ih =>
    cases rest with
    | nil => simp [joinSpace]
    | cons y t =>
      rw [show joinSpace (x :: y :: t) = x ++ ' ' :: joinSpace (y :: t) from rfl]
      constructor
      · intro hm
        rcases List.mem_append.1 hm with hx | hc
        · exact ⟨x, List.mem_cons_self x _, hx⟩
        · rcases List.mem_cons.1 hc with hsp | hj
          · exact absurd hsp (by decide)
          · obtain ⟨z, hz, hzp⟩ := ih.1 hj
            exact ⟨z, List.mem_cons_of_mem x hz, hzp⟩
      · rintro ⟨z, hz, hzp⟩
        rcases List.mem_cons.1 hz with rfl | hz2
        · exact List.mem_append.2 (Or.inl hzp)
        · exact List.mem_append.2 (Or.inr (List.mem_cons_of_mem ' ' (ih.2 ⟨z, hz2, hzp⟩)))

/-- Claim C9: a list command is joined with single spaces and run
through the shell exactly when some element contains `'|'` (equivalently
when the joined string does); otherwise it runs as an argument vector
without a shell. -/
theorem run_command_pipe_rule (exec : Exec) (args : List Str) :
    ('|' ∈ joinSpace args ↔ ∃ x ∈ args, '|' ∈ x)
    ∧ ((∃ x ∈ args, '|' ∈ x) →
        (run_command exec (.list args)).2 = some (.shell (joinSpace args) 30))
    ∧ ((∀ x ∈ args, '|' ∉ x) →
        (run_command exec (.list args)).2 = some (.vector args 30)) := by
  refine ⟨joinSpace_pipe_mem args, ?_, ?_⟩
  · intro h
    have hp : '|' ∈ joinSpace args := (joinSpace_pipe_mem args).2 h
    simp only [run_command]
    rw [if_pos hp]
  · intro h
    have hp : '|' ∉ joinSpace args := fun hmem => by
      obtain ⟨x, hx, hpx⟩ := (joinSpace_pipe_mem args).1 hmem
      exact h x hx hpx
    simp only [run_command]
    rw [if_neg hp]

/-- Witness for claim C9: one element of the argument list contains a
pipe, so the command is shell-executed as the joined string. -/
theorem run_command_pipe_rule_witness :
    (∃ x ∈ (["a|b".data, "c".data] : List Str), '|' ∈ x)
    ∧ (run_command fixExecV (.list ["a|b".data, "c".data])).2 =
        some (.shell (joinSpace ["a|b".data, "c".data]) 30) :=
  ⟨by decide, (run_command_pipe_rule fixExecV ["a|b".data, "c".data]).2.1 (by decide)⟩

end VAgent

namespace VAgent

/-- The source's `startswith('--') or startswith('-')` test is the same
as starting with a dash. -/
theorem startsWith_dash_iff (s : Str) :
    (startsWith "--".data s || startsWith "-".data s) = true ↔ s.head? = some '-' := by
  rw [show "--".data = ['-', '-'] from rfl, show "-".data = ['-'] from rfl]
  cases s with
  | nil => simp [startsWith, List.isPrefixOf]
  | cons c t =>
    simp only [startsWith, List.isPrefixOf, List.head?_cons, Option.some.injEq]
    by_cases hc : c = '-'
    · subst hc
      simp [List.isPrefixOf]
    · have hb : ('-' == c) = false := by
        simp only [beq_eq_false_iff_ne, ne_eq]
        exact fun he => hc he.symm
      simp [hb, hc]

/-- Claim C2 (amended): probe-command construction.  A string probe
containing `'|'` is kept as a shell pipeline string, `{path}`-substituted
when the placeholder occurs; a pipe-free string starting with `-` gives
`[path, probe]`; any other pipe-free string is split by POSIX shell-style
tokenization (plain whitespace splitting for unquoted input), giving
`[path] + tokens[1:]` when more than one token exists and
`[path, "--version"]` otherwise, with a tokenization error propagating;
a list probe gives `[path] + list`. -/
theorem build_version_cmd_spec (path s : Str) (l : List Str) :
    ('|' ∈ s → build_version_cmd path (.str s) =
       .ok (.str (if containsSub s "{path}".data then replaceAll s "{path}".data path else s)))
    ∧ ('|' ∉ s → s.head? = some '-' →
        build_version_cmd path (.str s) = .ok (.list [path, s]))
    ∧ (∀ toks, '|' ∉ s → s.head? ≠ some '-' → shlexSplit s = .ok toks →
        build_version_cmd path (.str s) =
          .ok (.list (if 1 < toks.length then path :: toks.drop 1
                      else [path, "--version".data])))
    ∧ ('|' ∉ s → s.head? ≠ some '-' → ∀ m, shlexSplit s = .error m →
        build_version_cmd path (.str s) = .error m)
    ∧ build_version_cmd path (.list l) = .ok (.list (path :: l)) := by
  have hnd : s.head? ≠ some '-' →
      ¬((startsWith "--".data s || startsWith "-".data s) = true) := by
    intro hd hcase
    exact hd ((startsWith_dash_iff s).1 hcase)
  refine ⟨?_, ?_, ?_, ?_, rfl⟩
  · intro hp
    simp only [build_version_cmd]
    rw [if_pos hp]
    by_cases hcp : containsSub s "{path}".data = true
    · rw [if_pos hcp, if_pos hcp]
    · rw [if_neg hcp, if_neg hcp]
  · intro hp hd
    simp only [build_version_cmd]
    rw [if_neg hp, if_pos ((startsWith_dash_iff s).2 hd)]
  · intro toks hp hd hsp
    simp only [build_version_cmd]
    rw [if_neg hp, if_neg (hnd hd), hsp]
  · intro hp hd m hsp
    simp only [build_version_cmd]
    rw [if_neg hp, if_neg (hnd hd), hsp]

/-- Counterexample to claim C2 as stated: the string probe
`-v|head -1` starts with `-`, yet the built command is the pipeline
string itself, not `[path, probe]`. -/
theorem build_version_cmd_c2_cx :
    build_version_cmd "/bin/app".data (.str "-v|head -1".data) =
      .ok (.str "-v|head -1".data)
    ∧ build_version_cmd "/bin/app".data (.str "-v|head -1".data) ≠
        .ok (.list ["/bin/app".data, "-v|head -1".data]) :=
  ⟨by rfl, by decide⟩

/-- Witness for the amended claim C2: the token-splitting branch on the
probe `java -version`. -/
theorem build_version_cmd_spec_witness :
    ('|' ∉ "java -version".data)
    ∧ ("java -version".data.head? ≠ some '-')
    ∧ shlexSplit "java -version".data = .ok ["java".data, "-version".data]
    ∧ build_version_cmd "/bin/j".data (.str "java -version".data) =
        .ok (.list (if 1 < (["java".data, "-version".data] : List Str).length
                    then "/bin/j".data :: (["java".data, "-version".data] : List Str).drop 1
                    else ["/bin/j".data, "--version".data])) :=
  ⟨by decide, by decide, by decide,
   (build_version_cmd_spec "/bin/j".data "java -version".data []).2.2.1
     ["java".data, "-version".data] (by decide) (by decide) (by decide)⟩

/-- `run_command` either issues one request with a 30-second timeout
and settles its outcome, or (string command with a tokenization error)
issues nothing and synthesizes a failure triple. -/
theorem run_command_cases (exec : Exec) (cmd : Cmd) :
    (∃ q, run_command exec cmd = (settle (exec q), some q) ∧ reqTimeout q = 30)
    ∨ (∃ m, run_command exec cmd = (⟨[], m, 1⟩, none)) := by
  cases cmd with
  | str s =>
    simp only [run_command]
    by_cases hp : '|' ∈ s
    · rw [if_pos hp]
      exact Or.inl ⟨_, rfl, rfl⟩
    · rw [if_neg hp]
      cases hsp : shlexSplit s with
      | error m => exact Or.inr ⟨m, rfl⟩
      | ok argv => exact Or.inl ⟨_, rfl, rfl⟩
  | list args =>
    simp only [run_command]
    by_cases hp : '|' ∈ joinSpace args
    · rw [if_pos hp]
      exact Or.inl ⟨_, rfl, rfl⟩
    · rw [if_neg hp]
      exact Or.inl ⟨_, rfl, rfl⟩

/-- Claim C4: `run_command` always returns a triple (it is total, hence
never raises); the request it issues carries the fixed 30-second
timeout; a timeout settles to `("", "Command timeout", 1)`; any other
execution exception settles to empty stdout, the exception message, and
exit code 1; a failed tokenization also synthesizes empty stdout and
exit code 1; a completed command passes its streams through. -/
theorem run_command_spec (exec : Exec) (cmd : Cmd) :
    (∀ q, (run_command exec cmd).2 = some q → reqTimeout q = 30)
    ∧ (∀ q, (run_command exec cmd).2 = some q → exec q = .timeout →
        (run_command exec cmd).1 = ⟨[], "Command timeout".data, 1⟩)
    ∧ (∀ q m, (run_command exec cmd).2 = some q → exec q = .osError m →
        (run_command exec cmd).1 = ⟨[], m, 1⟩)
    ∧ ((run_command exec cmd).2 = none →
        (run_command exec cmd).1.stdout = [] ∧ (run_command exec cmd).1.exitCode = 1)
    ∧ (∀ q o e c, (run_command exec cmd).2 = some q → exec q = .completed o e c →
        (run_command exec cmd).1 = ⟨o, e, c⟩) := by
  rcases run_command_cases exec cmd with ⟨q, hq, ht⟩ | ⟨m, hm⟩
  · rw [hq]
    refine ⟨?_, ?_, ?_, ?_, ?_⟩
    · intro q' hq'
      injection hq' with h
      subst h
      exact ht
    · intro q' hq' hto
      injection hq' with h
      subst h
      rw [hto]
      rfl
    · intro q' m' hq' hos
      injection hq' with h
      subst h
      rw [hos]
      rfl
    · intro hnone
      simp at hnone
    · intro q' o e c hq' hco
      injection hq' with h
      subst h
      rw [hco]
      rfl
  · rw [hm]
    refine ⟨?_, ?_, ?_, ?_, ?_⟩
    · intro q' hq'
      simp at hq'
    · intro q' hq' _
      simp at hq'
    · intro q' m' hq' _
      simp at hq'
    · intro _
      exact ⟨rfl, rfl⟩
    · intro q' o e c hq' _
      simp at hq'

/-- Witness for claim C4: a world where the probe times out. -/
theorem run_command_spec_witness :
    (run_command fixExecT (.list ["sleep".data])).2 = some (.vector ["sleep".data] 30)
    ∧ fixExecT (.vector ["sleep".data] 30) = .timeout
    ∧ (run_command fixExecT (.list ["sleep".data])).1 = ⟨[], "Command timeout".data, 1⟩ :=
  ⟨by decide, rfl,
   (run_command_spec fixExecT (.list ["sleep".data])).2.1 (.vector ["sleep".data] 30)
     (by decide) rfl⟩

end VAgent

namespace VAgent

/-- When every POST in range completes with a status, the reporting
loop posts every record in order and returns overall success. -/
theorem reportLoop_all_statuses (resp : Nat → HttpResp) :
    ∀ (apps : List ApplicationInfo) (i : Nat),
      (∀ j, j < apps.length → isStatusB (resp (i + j)) = true) →
      reportLoop resp i apps = (true, apps.map Event.reportPost) := by
  intro apps
  induction apps with
  | nil => intro i _; rfl
  | cons a rest ih =>
    intro i h
    have h0 : isStatusB (resp i) = true := by
      have hx := h 0 (Nat.succ_pos _)
      simpa using hx
    unfold reportLoop
    cases hr : resp i with
    | status code =>
      have hrec := ih (i + 1) (fun j hj => by
        have hx := h (j + 1) (Nat.succ_lt_succ hj)
        rw [show i + (j + 1) = i + 1 + j by omega] at hx
        exact hx)
      rw [hrec]
      rfl
    | connError => rw [hr] at h0; simp [isStatusB] at h0
    | exn m => rw [hr] at h0; simp [isStatusB] at h0

/-- Claim C5 (amended): with a registered non-empty host id, when every
per-record POST completes with some HTTP status (no transport
exception), every record is submitted in order — a non-200 status never
blocks later records — and the overall result is success regardless of
the statuses. -/
theorem report_applications_statuses (hid : Str) (resp : Nat → HttpResp)
    (apps : List ApplicationInfo)
    (h1 : hid ≠ []) (h2 : ∀ j, j < apps.length → isStatusB (resp j) = true) :
    report_applications (some hid) resp apps = (true, apps.map Event.reportPost) := by
  have ht : truthyOpt (some hid) = true := by
    cases hid with
    | nil => exact absurd rfl h1
    | cons c t => rfl
  unfold report_applications
  rw [if_pos ht]
  exact reportLoop_all_statuses resp apps 0 (fun j hj => by simpa using h2 j hj)

/-- Counterexample to claim C5 as stated: registration can succeed with
the empty string as assigned host id (HTTP 200, `host_id` = `""`), yet
with that registered id and every POST answering 200, `reportAll`
returns failure and submits nothing. -/
theorem report_applications_c5_cx :
    register_host fixEnvEmptyId = (true, some [], [Event.registerPost])
    ∧ report_applications (some []) fixResp200 [fixApp] = (false, [])
    ∧ report_applications (some []) fixResp200 [fixApp] ≠
        (true, [Event.reportPost fixApp]) :=
  ⟨rfl, rfl, by decide⟩

/-- Witness for the amended claim C5: three records with the middle
POST answering HTTP 500 are all still submitted and the overall result
is success. -/
theorem report_applications_statuses_witness :
    ("h7".data ≠ ([] : Str))
    ∧ (∀ j, j < fixApps3.length → isStatusB (fixResp500mid j) = true)
    ∧ report_applications (some "h7".data) fixResp500mid fixApps3 =
        (true, fixApps3.map Event.reportPost) :=
  ⟨by decide, by decide,
   report_applications_statuses "h7".data fixResp500mid fixApps3 (by decide) (by decide)⟩

/-- Claim C6 (amended): the version pattern is not validated at plugin
construction — construction always succeeds — and a pattern lacking a
capturing group makes `get_version` return nothing for every world and
path (the discovery-time error is swallowed), a silent discovery-time
failure rather than a construction error. -/
theorem plugin_pattern_unvalidated (cfg : AppConfig) :
    (dynamicPluginInit cfg).isOk = true
    ∧ (gcount (cfg.version_regex.getD defaultVersionRegex) = 0 →
        ∀ (exec : Exec) (path : Str), get_version cfg exec path = none) := by
  refine ⟨rfl, ?_⟩
  intro hg exec path
  unfold get_version
  cases build_version_cmd path (cfg.version_command.getD (.str "--version".data)) with
  | error m => rfl
  | ok cmd =>
    show (if (run_command exec cmd).1.exitCode = 0 then
        extract_version (cfg.version_regex.getD defaultVersionRegex)
          (run_command exec cmd).1.stdout (run_command exec cmd).1.stderr
      else none) = none
    by_cases hec : (run_command exec cmd).1.exitCode = 0
    · rw [if_pos hec]
      unfold extract_version
      cases searchAux (cfg.version_regex.getD defaultVersionRegex)
          (run_command exec cmd).1.stdout with
      | some caps =>
        show pyGroupOne (cfg.version_regex.getD defaultVersionRegex) caps = none
        simp [pyGroupOne, hg]
      | none =>
        cases searchAux (cfg.version_regex.getD defaultVersionRegex)
            (run_command exec cmd).1.stderr with
        | some caps =>
          show pyGroupOne (cfg.version_regex.getD defaultVersionRegex) caps = none
          simp [pyGroupOne, hg]
        | none => rfl
    · rw [if_neg hec]

/-- Counterexample to claim C6 as stated: with the group-less pattern
`\d+\.\d+\.\d+` configured, plugin construction succeeds (no
construction error), and although the candidate path exists, the probe
exits 0 and the pattern matches the output, discovery silently yields
no record. -/
theorem plugin_validation_c6_cx :
    (dynamicPluginInit fixCfgNoGroup).isOk = true
    ∧ gcount fixNoGroupPat = 0
    ∧ fixFs "/bin/app".data = true
    ∧ hasMatchB fixNoGroupPat "1.2.3".data = true
    ∧ discover fixCfgNoGroup fixFs fixExecV "t0".data = [] :=
  ⟨rfl, rfl, rfl, by decide, by decide⟩

/-- Witness for the amended claim C6. -/
theorem plugin_pattern_unvalidated_witness :
    (dynamicPluginInit fixCfgNoGroup).isOk = true
    ∧ gcount (fixCfgNoGroup.version_regex.getD defaultVersionRegex) = 0
    ∧ get_version fixCfgNoGroup fixExecV "/bin/app".data = none :=
  ⟨(plugin_pattern_unvalidated fixCfgNoGroup).1, by decide,
   (plugin_pattern_unvalidated fixCfgNoGroup).2 (by decide) fixExecV "/bin/app".data⟩

end VAgent
